import Mathlib

/-!
Shallow embedding of `src/bitstream/bit_to_header.c`, a command-line tool
that reads a binary file and writes a C header declaring the file's bytes
as a `const uint8_t` array.

The pure text-producing part of `write_header` is embedded as functions
from the byte list to the output string.  The process-level behaviour
(`main`, the two `fopen` calls, `exit` codes, `perror` diagnostics, the
`fseek`/`ftell`/`rewind` length query and the `fgetc` loop) is embedded as
a function producing an exit code together with a linear trace of events,
one event per observable libc call, in program order.
-/

/-- Character emitted by printf's `%X` conversion for one hex digit value
below 16: `0`-`9` for values 0-9, then uppercase `A`-`F`. -/
def hexDigit (n : Nat) : Char :=
  if n < 10 then Char.ofNat (48 + n) else Char.ofNat (55 + n)

/-- Text printed by `fprintf(out, "0x%02X", byte)` in `write_header` for one
byte returned by `fgetc` (a value in 0..255): the prefix `0x` and exactly two
zero-padded uppercase hexadecimal digits. -/
def byteHex (b : Fin 256) : String :=
  ⟨['0', 'x', hexDigit (b.val / 16), hexDigit (b.val % 16)]⟩

/-- Text of `fprintf(out, "#ifndef %s_H\n", array_name)`. -/
def guardLine1 (name : String) : String := "#ifndef " ++ name ++ "_H\n"

/-- Text of `fprintf(out, "#define %s_H\n\n", array_name)`. -/
def guardLine2 (name : String) : String := "#define " ++ name ++ "_H\n\n"

/-- Text of `fprintf(out, "#include <stdint.h>\n\n")`. -/
def includeLine : String := "#include <stdint.h>\n\n"

/-- Text of `fprintf(out, "#define %s_SIZE %zu\n", array_name, filesize)`. -/
def sizeLine (name : String) (n : Nat) : String :=
  "#define " ++ name ++ "_SIZE " ++ toString n ++ "\n"

/-- Text of `fprintf(out, "const uint8_t %s[%zu] = \x7b\n", array_name, filesize)`. -/
def arrayOpen (name : String) (n : Nat) : String :=
  "const uint8_t " ++ name ++ "[" ++ toString n ++ "] = \x7b\n"

/-- Text of the closing `fprintf(out, "\n\x7d;\n\n#endif\n")`. -/
def headerTail : String := "\n\x7d;\n\n#endif\n"

/-- Everything `write_header` prints before the loop: guard lines, include
line, size constant and array opener, in `fprintf` order. -/
def headerLead (name : String) (n : Nat) : String :=
  guardLine1 name ++ guardLine2 name ++ includeLine ++ sizeLine name n
    ++ arrayOpen name n

/-- Text written by one iteration of the loop body for index `i` out of
`n = filesize`: the hex literal, then `fprintf(out, ",")` exactly when
`i != filesize - 1`, then a newline when `(i + 1) % 12 == 0` and a single
space otherwise. -/
def chunkOut (n i : Nat) (b : Fin 256) : String :=
  byteHex b ++ (if i ≠ n - 1 then "," else "")
    ++ (if (i + 1) % 12 == 0 then "\n" else " ")

/-- Output of the `for (i = 0; i < filesize; i++)` loop, starting at index
`i` with the still-unread part of the file given as a list: `fgetc` yields
the head of the list, and yields `EOF` (so the loop breaks) when the list is
exhausted before `filesize` bytes were read. -/
def array_body (n : Nat) : List (Fin 256) → Nat → String
  | [], _ => ""
  | b :: rest, i =>
    if i < n then chunkOut n i b ++ array_body n rest (i + 1) else ""

/-- Full text written to the output file by `write_header` when both `fopen`
calls succeed, with `filesize` the value `ftell` returned at end-of-file and
`avail` the bytes `fgetc` subsequently delivers.  In an unchanging file
`avail` has length `filesize`. -/
def write_header_text (filesize : Nat) (avail : List (Fin 256)) (name : String) : String :=
  headerLead name filesize ++ array_body filesize avail 0 ++ headerTail

/-- Output of a normal run of `write_header` on a file whose contents are
`data`: `ftell` reports the byte count and the read loop sees those bytes. -/
def emit (data : List (Fin 256)) (name : String) : String :=
  write_header_text data.length data name

/-- Text of the final `printf("Header written to %s with %zu bytes.\n", ...)`. -/
def successMsg (outPath : String) (n : Nat) : String :=
  "Header written to " ++ outPath ++ " with " ++ toString n ++ " bytes.\n"

/-- Text of `printf("Usage: %s input.bit output.h array_name\n", argv[0])`. -/
def usageMsg (prog : String) : String :=
  "Usage: " ++ prog ++ " input.bit output.h array_name\n"

/-- One observable libc-level step of the program.  `perr msg` models
`perror(msg)`, which writes `msg`, the OS error reason for the failed call,
and a newline to standard error.  `readByte none` models an `fgetc` call
returning `EOF`. -/
inductive Ev where
  | openInput (ok : Bool)
  | openOutput (ok : Bool)
  | perr (msg : String)
  | seekEnd
  | tell (n : Nat)
  | rewind
  | readByte (b : Option (Fin 256))
  | writeOut (s : String)
  | closeInput
  | closeOutput
  | printStdout (s : String)
deriving DecidableEq

/-- Whether an event is the `ftell` length query. -/
def Ev.isTell : Ev → Bool
  | .tell _ => true
  | _ => false

/-- Whether an event is an `fgetc` read of the input file. -/
def Ev.isRead : Ev → Bool
  | .readByte _ => true
  | _ => false

/-- Whether an event is the `fopen` of the output file. -/
def Ev.isOpenOut : Ev → Bool
  | .openOutput _ => true
  | _ => false

/-- Whether an event touches any file (opens, seeks, length queries,
rewinds, reads, writes, closes).  Messages to stdout/stderr are not file
I/O in the sense of the spec's CLI contract. -/
def Ev.isFileIO : Ev → Bool
  | .printStdout _ => false
  | .perr _ => false
  | _ => true

/-- Whether an event creates, modifies or otherwise touches the output
file: its `fopen`, any `fprintf` to it, or its `fclose`. -/
def Ev.touchesOutput : Ev → Bool
  | .openOutput _ => true
  | .writeOut _ => true
  | .closeOutput => true
  | _ => false

/-- Event trace of the read/write loop: each iteration with `i < filesize`
first calls `fgetc`; on a byte it writes that element's text and continues,
on `EOF` it breaks out of the loop. -/
def loop_ev (n : Nat) : List (Fin 256) → Nat → List Ev
  | [], i => if i < n then [.readByte none] else []
  | b :: rest, i =>
    if i < n then
      .readByte (some b) :: .writeOut (chunkOut n i b) :: loop_ev n rest (i + 1)
    else []

/-- Event trace of `write_header` when both `fopen` calls succeed: open
input, open output, `fseek(in, 0, SEEK_END)`, `ftell`, `rewind`, the five
header `fprintf`s, the loop, the closing `fprintf`, both `fclose`s, and the
success `printf`.  No step after the opens can fail in the C code (no
return value is checked), so this path always runs to the end. -/
def writeHeaderTrace (filesize : Nat) (avail : List (Fin 256)) (outPath name : String) : List Ev :=
  .openInput true :: .openOutput true :: .seekEnd :: .tell filesize :: .rewind ::
    .writeOut (guardLine1 name) :: .writeOut (guardLine2 name) ::
    .writeOut includeLine :: .writeOut (sizeLine name filesize) ::
    .writeOut (arrayOpen name filesize) ::
    (loop_ev filesize avail 0
      ++ [.writeOut headerTail, .closeInput, .closeOutput,
          .printStdout (successMsg outPath filesize)])

/-- Exit code and event trace of the whole program.  `argv` is the C
argument vector (`argv[0]` is the program name); `inData = none` models an
input path `fopen(input_file, "rb")` cannot open, `inData = some (filesize,
avail)` a successfully opened input whose `ftell` length is `filesize` and
whose reads deliver `avail`; `outOk` tells whether `fopen(output_file, "w")`
succeeds.  `exit(1)` inside `write_header` and `return 1` from `main` both
surface as exit code 1. -/
def main_model (argv : List String) (inData : Option (Nat × List (Fin 256))) (outOk : Bool) :
    Nat × List Ev :=
  if argv.length < 4 then
    (1, [.printStdout (usageMsg (argv.headD ""))])
  else
    match inData with
    | none => (1, [.openInput false, .perr "Failed to open input file"])
    | some (filesize, avail) =>
      if outOk then
        (0, writeHeaderTrace filesize avail (argv.getD 2 "") (argv.getD 3 ""))
      else
        (1, [.openInput true, .openOutput false,
             .perr "Failed to open output file", .closeInput])

/-- Concatenation of all `writeOut` payloads of a trace: the final contents
of the output file. -/
def outContent : List Ev → String
  | [] => ""
  | .writeOut s :: rest => s ++ outContent rest
  | _ :: rest => outContent rest

/-- A trace leaks a handle if a file was opened successfully but never
closed before the process ended. -/
def leakFree (evs : List Ev) : Bool :=
  (!(evs.contains (Ev.openInput true)) || evs.contains Ev.closeInput)
    && (!(evs.contains (Ev.openOutput true)) || evs.contains Ev.closeOutput)

/-- Characters the round-trip decoder strips from the array body: the
comma, space and newline formatting emitted between hex literals. -/
def isSep (c : Char) : Bool := c == ',' || c == ' ' || c == '\n'

/-- Splits a character list into maximal runs of non-separator characters,
dropping all separators. -/
def splitAux : List Char → List Char → List (List Char)
  | [], acc => if acc.isEmpty then [] else [acc.reverse]
  | c :: rest, acc =>
    if isSep c then
      if acc.isEmpty then splitAux rest [] else acc.reverse :: splitAux rest []
    else splitAux rest (c :: acc)

/-- The hex-literal tokens of an array body: what remains after stripping
commas, spaces and newlines. -/
def tokens (l : List Char) : List (List Char) := splitAux l []

/-- Value of one hexadecimal digit character (digits and uppercase letters),
used to decode an emitted literal back to a byte. -/
def decodeHexDigit (c : Char) : Option (Fin 16) :=
  if h : 48 ≤ c.toNat ∧ c.toNat ≤ 57 then some ⟨c.toNat - 48, by omega⟩
  else if h2 : 65 ≤ c.toNat ∧ c.toNat ≤ 70 then some ⟨c.toNat - 55, by omega⟩
  else none

/-- Decodes one token of the form `0xHH` back to its byte value. -/
def parseHexLit : List Char → Option (Fin 256)
  | ['0', 'x', hc, lc] =>
    match decodeHexDigit hc, decodeHexDigit lc with
    | some hi, some lo =>
      some ⟨hi.val * 16 + lo.val, by
        have h1 := hi.isLt
        have h2 := lo.isLt
        omega⟩
    | _, _ => none
  | _ => none

/-- Decodes a token list back to a byte sequence; fails if any token is not
a well-formed hex literal. -/
def parseAll : List (List Char) → Option (List (Fin 256))
  | [] => some []
  | t :: rest =>
    match parseHexLit t, parseAll rest with
    | some b, some bs => some (b :: bs)
    | _, _ => none

/-- Splits a character list at newline characters (the newlines removed),
so a text ending in a newline yields a trailing empty line. -/
def splitLinesAux : List Char → List Char → List (List Char)
  | [], acc => [acc.reverse]
  | c :: rest, acc =>
    if c == '\n' then acc.reverse :: splitLinesAux rest []
    else splitLinesAux rest (c :: acc)

/-- The lines of a text, for inspecting the generated header line by line. -/
def splitLines (l : List Char) : List (List Char) := splitLinesAux l []

/-- Modelled from the spec: the sixteen uppercase hexadecimal digit
characters, indexed by digit value. -/
def upperHexDigitChar (n : Nat) : Char :=
  ['0', '1', '2', '3', '4', '5', '6', '7', '8', '9',
   'A', 'B', 'C', 'D', 'E', 'F'].getD n '?'

/-- Modelled from the spec: the uppercase hexadecimal digit string of a
number, most significant digit first (empty for 0; the first argument is
recursion fuel). -/
def upperHexAux : Nat → Nat → List Char
  | 0, _ => []
  | fuel + 1, n =>
    if n = 0 then [] else upperHexAux fuel (n / 16) ++ [upperHexDigitChar (n % 16)]

/-- Modelled from the spec: the two-digit, zero-padded, uppercase
hexadecimal representation of a byte value. -/
def twoDigitUpperHex (n : Nat) : List Char :=
  let ds := if n = 0 then ['0'] else upperHexAux n n
  List.replicate (2 - ds.length) '0' ++ ds

/-- Stated from the amended claim: per-element text of the array body — the
hex literal, a comma exactly when further elements follow, then a newline
when the element's 1-based position is divisible by 12 and a single space
otherwise (also after the final element). -/
def chunkSpec (n i : Nat) (b : Fin 256) : String :=
  byteHex b ++ (if i + 1 < n then "," else "")
    ++ (if (i + 1) % 12 = 0 then "\n" else " ")

/-- Concatenation of a list of strings, in order. -/
def strConcat : List String → String
  | [] => ""
  | s :: rest => s ++ strConcat rest

/-- The 14-byte input 0x00..0x0D of the spec's worked scenario. -/
def data14 : List (Fin 256) :=
  [0, 1, 2, 3, 4, 5, 6, 7, 8, 9, 10, 11, 12, 13]

/-! ### Helper lemmas about the formatting and its decoder -/

theorem hexDigit_not_sep (k : Nat) (hk : k < 16) : isSep (hexDigit k) = false := by
  interval_cases k <;> decide

theorem hexDigit_div_not_sep (b : Fin 256) : isSep (hexDigit (b.val / 16)) = false :=
  hexDigit_not_sep _ (Nat.div_lt_of_lt_mul (by have := b.isLt; omega))

theorem hexDigit_mod_not_sep (b : Fin 256) : isSep (hexDigit (b.val % 16)) = false :=
  hexDigit_not_sep _ (Nat.mod_lt _ (by omega))

theorem splitAux_sepSkip (c : Char) (hc : isSep c = true) (l : List Char) :
    splitAux (c :: l) [] = splitAux l [] := by
  simp [splitAux, hc]

theorem splitAux_chunk (d1 d2 s : Char) (h1 : isSep d1 = false)
    (h2 : isSep d2 = false) (hs : isSep s = true) (l : List Char) :
    splitAux ('0' :: 'x' :: d1 :: d2 :: s :: l) []
      = ['0', 'x', d1, d2] :: splitAux l [] := by
  have h0 : isSep '0' = false := by decide
  have hx : isSep 'x' = false := by decide
  simp [splitAux, h0, hx, h1, h2, hs]

theorem splitAux_array_body (avail : List (Fin 256)) : ∀ i n : Nat,
    splitAux (array_body n avail i).data []
      = (avail.take (n - i)).map (fun b => (byteHex b).data) := by
  induction avail with
  | nil =>
    intro i n
    simp [array_body, splitAux]
  | cons b rest ih =>
    intro i n
    by_cases hin : i < n
    · have hsub : n - i = (n - (i + 1)) + 1 := by omega
      rw [hsub, List.take_succ_cons, List.map_cons]
      have hd1 := hexDigit_div_not_sep b
      have hd2 := hexDigit_mod_not_sep b
      have hcm : ("," : String).data = [','] := rfl
      have hnl : ("\n" : String).data = ['\n'] := rfl
      have hsp : (" " : String).data = [' '] := rfl
      have hem : ("" : String).data = [] := rfl
      simp only [array_body, if_pos hin, chunkOut, byteHex, String.data_append]
      by_cases hlast : i = n - 1
      · rw [if_neg (by omega : ¬ i ≠ n - 1)]
        cases hw : ((i + 1) % 12 == 0) with
        | true =>
          rw [if_pos rfl]
          simp only [hnl, hem, List.cons_append, List.nil_append, List.append_nil]
          rw [splitAux_chunk _ _ _ hd1 hd2 (by decide), ih (i + 1) n]
          simp [byteHex]
        | false =>
          rw [if_neg (by simp)]
          simp only [hsp, hem, List.cons_append, List.nil_append, List.append_nil]
          rw [splitAux_chunk _ _ _ hd1 hd2 (by decide), ih (i + 1) n]
          simp [byteHex]
      · rw [if_pos (by omega : i ≠ n - 1)]
        cases hw : ((i + 1) % 12 == 0) with
        | true =>
          rw [if_pos rfl]
          simp only [hnl, hcm, List.cons_append, List.nil_append, List.append_nil]
          rw [splitAux_chunk _ _ _ hd1 hd2 (by decide),
            splitAux_sepSkip '\n' (by decide), ih (i + 1) n]
          simp [byteHex]
        | false =>
          rw [if_neg (by simp)]
          simp only [hsp, hcm, List.cons_append, List.nil_append, List.append_nil]
          rw [splitAux_chunk _ _ _ hd1 hd2 (by decide),
            splitAux_sepSkip ' ' (by decide), ih (i + 1) n]
          simp [byteHex]
    · simp [array_body, if_neg hin, splitAux, Nat.sub_eq_zero_of_le (by omega : n ≤ i)]

theorem tokens_array_body (avail : List (Fin 256)) (n : Nat) :
    tokens (array_body n avail 0).data
      = (avail.take n).map (fun b => (byteHex b).data) := by
  have h := splitAux_array_body avail 0 n
  simpa [tokens] using h

set_option maxRecDepth 4096 in
theorem parseHexLit_byteHex : ∀ b : Fin 256, parseHexLit (byteHex b).data = some b := by
  decide

theorem parseAll_map_byteHex (data : List (Fin 256)) :
    parseAll (data.map (fun b => (byteHex b).data)) = some data := by
  induction data with
  | nil => rfl
  | cons b rest ih => simp [parseAll, parseHexLit_byteHex b, ih]

set_option maxRecDepth 4096 in
theorem byteHex_twoDigit : ∀ b : Fin 256,
    (byteHex b).data = '0' :: 'x' :: twoDigitUpperHex b.val := by
  decide

theorem strAppend_assoc (a b c : String) : a ++ b ++ c = a ++ (b ++ c) :=
  String.append_assoc a b c

theorem outContent_append (l1 l2 : List Ev) :
    outContent (l1 ++ l2) = outContent l1 ++ outContent l2 := by
  induction l1 with
  | nil =>
    show outContent l2 = outContent [] ++ outContent l2
    have : outContent ([] : List Ev) = "" := rfl
    rw [this]
    exact (String.empty_append _).symm
  | cons e t ih =>
    cases e <;> simp [outContent, ih, strAppend_assoc]

theorem outContent_loop_ev (avail : List (Fin 256)) : ∀ i n : Nat,
    outContent (loop_ev n avail i) = array_body n avail i := by
  induction avail with
  | nil =>
    intro i n
    by_cases hin : i < n <;> simp [loop_ev, array_body, hin, outContent]
  | cons b rest ih =>
    intro i n
    by_cases hin : i < n <;> simp [loop_ev, array_body, hin, outContent, ih]

theorem getLast?_append_four (l : List Ev) (a b c d : Ev) :
    (l ++ [a, b, c, d]).getLast? = some d := by
  induction l with
  | nil => rfl
  | cons e t ih =>
    rw [List.cons_append, List.getLast?_cons, ih]
    rfl

theorem chunkOut_eq_chunkSpec (n i : Nat) (b : Fin 256) (hin : i < n) :
    chunkOut n i b = chunkSpec n i b := by
  unfold chunkOut chunkSpec
  congr 1
  · congr 1
    by_cases hl : i + 1 < n
    · rw [if_pos hl, if_pos (by omega : i ≠ n - 1)]
    · rw [if_neg hl, if_neg (by omega : ¬ i ≠ n - 1)]
  · by_cases hm : (i + 1) % 12 = 0
    · rw [if_pos (by simpa using hm), if_pos hm]
    · rw [if_neg (by simpa using hm), if_neg hm]

theorem array_body_chunkSpec (data : List (Fin 256)) : ∀ i n : Nat, i + data.length ≤ n →
    array_body n data i
      = strConcat (List.mapIdx (fun j b => chunkSpec n (i + j) b) data) := by
  induction data with
  | nil =>
    intro i n _
    simp [array_body, strConcat]
  | cons b rest ih =>
    intro i n h
    rw [List.length_cons] at h
    have hin : i < n := by omega
    rw [List.mapIdx_cons]
    show array_body n (b :: rest) i
      = chunkSpec n (i + 0) b
          ++ strConcat (List.mapIdx (fun j b => chunkSpec n (i + (j + 1)) b) rest)
    have hfun : (fun j (b : Fin 256) => chunkSpec n (i + (j + 1)) b)
        = (fun j b => chunkSpec n ((i + 1) + j) b) := by
      funext j b
      have hj : i + (j + 1) = i + 1 + j := by omega
      rw [hj]
    rw [hfun]
    simp only [array_body, if_pos hin, Nat.add_zero]
    rw [chunkOut_eq_chunkSpec n i b hin, ih (i + 1) n (by omega)]

theorem main_model_success (p f o nm : String) (rest : List String)
    (filesize : Nat) (avail : List (Fin 256)) :
    main_model (p :: f :: o :: nm :: rest) (some (filesize, avail)) true
      = (0, writeHeaderTrace filesize avail o nm) := by
  have hlen : ¬ (p :: f :: o :: nm :: rest).length < 4 := by
    simp only [List.length_cons]
    omega
  unfold main_model
  rw [if_neg hlen]
  rfl

theorem main_model_noInput (p f o nm : String) (rest : List String) (outOk : Bool) :
    main_model (p :: f :: o :: nm :: rest) none outOk
      = (1, [Ev.openInput false, Ev.perr "Failed to open input file"]) := by
  have hlen : ¬ (p :: f :: o :: nm :: rest).length < 4 := by
    simp only [List.length_cons]
    omega
  unfold main_model
  rw [if_neg hlen]

theorem main_model_noOutput (p f o nm : String) (rest : List String)
    (filesize : Nat) (avail : List (Fin 256)) :
    main_model (p :: f :: o :: nm :: rest) (some (filesize, avail)) false
      = (1, [Ev.openInput true, Ev.openOutput false,
             Ev.perr "Failed to open output file", Ev.closeInput]) := by
  have hlen : ¬ (p :: f :: o :: nm :: rest).length < 4 := by
    simp only [List.length_cons]
    omega
  unfold main_model
  rw [if_neg hlen]
  rfl

/-! ### Claim theorems -/

/-- C1: for every input of N ≥ 0 bytes and every symbol name, the generated
header contains the `SYMBOL_SIZE` define with value exactly N (the output
splits around that size line), and the array body consists of exactly N hex
literals whose order matches the input byte order; a 0-byte input yields the
size line with 0 and an empty array body. -/
theorem spec_C1 (data : List (Fin 256)) (name : String) :
    emit data name
        = guardLine1 name ++ (guardLine2 name ++ (includeLine
            ++ (sizeLine name data.length
              ++ (arrayOpen name data.length
                ++ (array_body data.length data 0 ++ headerTail)))))
    ∧ tokens (array_body data.length data 0).data
        = data.map (fun b => (byteHex b).data)
    ∧ (tokens (array_body data.length data 0).data).length = data.length
    ∧ array_body 0 ([] : List (Fin 256)) 0 = "" := by
  refine ⟨?_, ?_, ?_, rfl⟩
  · simp [emit, write_header_text, headerLead, String.append_assoc]
  · rw [tokens_array_body data data.length, List.take_length]
  · rw [tokens_array_body data data.length, List.take_length, List.length_map]

set_option maxRecDepth 8192 in
/-- C2: for the 14-byte input 0x00..0x0D and symbol `FOO`, the output starts
with the `#ifndef FOO_H` guard, contains `#define FOO_SIZE 14`, its first
array line carries the 12 literals 0x00..0x0B and ends at a newline, its
second array line carries exactly `0x0C` and `0x0D` with no comma after
`0x0D` (the character following `0x0D` is a space), and the following lines
are the array closer, a blank line and `#endif`. -/
theorem spec_C2 :
    emit data14 "FOO"
        = "#ifndef FOO_H\n#define FOO_H\n\n#include <stdint.h>\n\n#define FOO_SIZE 14\nconst uint8_t FOO[14] = \x7b\n0x00, 0x01, 0x02, 0x03, 0x04, 0x05, 0x06, 0x07, 0x08, 0x09, 0x0A, 0x0B,\n0x0C, 0x0D \n\x7d;\n\n#endif\n"
    ∧ (emit data14 "FOO").data.take 13 = ("#ifndef FOO_H").data
    ∧ splitLines (emit data14 "FOO").data
        = ["#ifndef FOO_H", "#define FOO_H", "", "#include <stdint.h>", "",
           "#define FOO_SIZE 14", "const uint8_t FOO[14] = \x7b",
           "0x00, 0x01, 0x02, 0x03, 0x04, 0x05, 0x06, 0x07, 0x08, 0x09, 0x0A, 0x0B,",
           "0x0C, 0x0D ", "\x7d;", "", "#endif", ""].map String.data
    ∧ tokens ("0x00, 0x01, 0x02, 0x03, 0x04, 0x05, 0x06, 0x07, 0x08, 0x09, 0x0A, 0x0B,").data
        = ["0x00", "0x01", "0x02", "0x03", "0x04", "0x05", "0x06", "0x07",
           "0x08", "0x09", "0x0A", "0x0B"].map String.data
    ∧ tokens ("0x0C, 0x0D ").data = ["0x0C", "0x0D"].map String.data
    ∧ ("0x0C, 0x0D ").data.getD 10 '?' = ' '
    ∧ (' ' : Char) ≠ ',' := by
  decide

/-- C3 counterexample: for the 1-byte input 0x00 the array body is the five
characters `0x00` followed by a space — so the claim's final clause, that
the final element is followed by a newline, fails: the character directly
after the final hex literal is a space (the newline before the closing
brace comes only after it). -/
theorem spec_C3_cex :
    emit [(0 : Fin 256)] "X"
        = "#ifndef X_H\n#define X_H\n\n#include <stdint.h>\n\n#define X_SIZE 1\nconst uint8_t X[1] = \x7b\n0x00 \n\x7d;\n\n#endif\n"
    ∧ (array_body 1 [(0 : Fin 256)] 0).data = ['0', 'x', '0', '0', ' ']
    ∧ (' ' : Char) ≠ '\n' := by
  decide

/-- C3 (amended): for every input of N ≥ 1 bytes, the array body is exactly
the per-element chunks in input order, where each element is followed by a
comma exactly when it is not the last, then by a newline when its 0-based
position is 11 mod 12 and by a single space otherwise — including the final
element, which thus carries no trailing comma and is followed by a space
(or a newline at a 12-boundary); the newline before the closing brace comes
from the fixed tail text. -/
theorem spec_C3 (data : List (Fin 256)) (name : String) (h : 1 ≤ data.length) :
    emit data name
      = headerLead name data.length
          ++ strConcat (List.mapIdx (fun i b => chunkSpec data.length i b) data)
          ++ headerTail := by
  rw [emit, write_header_text, array_body_chunkSpec data 0 data.length (by omega)]
  simp [Nat.zero_add]

/-- Witness for C3 at the concrete 1-byte input 0x00. -/
theorem spec_C3_witness :
    1 ≤ ([(0 : Fin 256)]).length
    ∧ emit [(0 : Fin 256)] "X"
        = headerLead "X" ([(0 : Fin 256)]).length
            ++ strConcat (List.mapIdx
                (fun i b => chunkSpec ([(0 : Fin 256)]).length i b) [(0 : Fin 256)])
            ++ headerTail :=
  ⟨by decide, spec_C3 [(0 : Fin 256)] "X" (by decide)⟩

/-- C4: the hex literal token at each index of the emitted array body is
exactly `0x` followed by the two-digit, zero-padded, uppercase hexadecimal
representation of the input byte at the same index (stated via `Option` so
it covers every index: beyond the input length there is no token either). -/
theorem spec_C4 (data : List (Fin 256)) (i : Nat) :
    (tokens (array_body data.length data 0).data)[i]?
      = data[i]?.map (fun b => '0' :: 'x' :: twoDigitUpperHex b.val) := by
  rw [tokens_array_body data data.length, List.take_length, List.getElem?_map]
  cases hi : data[i]? with
  | none => rfl
  | some b => simp [byteHex_twoDigit b]

/-- C5: round-trip — stripping the surrounding header text (the output is
the lead, the body and the tail), then splitting the body at commas, spaces
and newlines and parsing each `0xHH` token, reproduces the input byte
sequence exactly, for every input; the empty input and the input holding
all 256 byte values are spelled out as instances. -/
theorem spec_C5 (data : List (Fin 256)) (name : String) :
    emit data name
        = headerLead name data.length ++ array_body data.length data 0 ++ headerTail
    ∧ parseAll (tokens (array_body data.length data 0).data) = some data
    ∧ parseAll (tokens (array_body (List.finRange 256).length (List.finRange 256) 0).data)
        = some (List.finRange 256)
    ∧ parseAll (tokens (array_body 0 ([] : List (Fin 256)) 0).data) = some [] := by
  refine ⟨rfl, ?_, ?_, rfl⟩
  · rw [tokens_array_body data data.length, List.take_length, parseAll_map_byteHex]
  · rw [tokens_array_body (List.finRange 256) (List.finRange 256).length,
      List.take_length, parseAll_map_byteHex]

/-- C6: with fewer than 3 positional arguments (argc < 4, argv nonempty as
in any hosted C invocation) the program prints only the usage line to
standard output, exits with status 1, and its trace contains no file I/O
event at all — no file is opened, read, written, or closed. -/
theorem spec_C6 (argv : List String) (inData : Option (Nat × List (Fin 256)))
    (outOk : Bool) (h0 : argv ≠ []) (h : argv.length < 4) :
    main_model argv inData outOk
        = (1, [Ev.printStdout (usageMsg (argv.headD ""))])
    ∧ ((main_model argv inData outOk).2.all fun e => !e.isFileIO) = true := by
  have h1 : main_model argv inData outOk
      = (1, [Ev.printStdout (usageMsg (argv.headD ""))]) := by
    unfold main_model
    rw [if_pos h]
  exact ⟨h1, by rw [h1]; rfl⟩

/-- Witness for C6: invocation with the program name alone. -/
theorem spec_C6_witness :
    (["prog"] : List String) ≠ []
    ∧ (["prog"] : List String).length < 4
    ∧ (main_model ["prog"] none true
          = (1, [Ev.printStdout (usageMsg ((["prog"] : List String).headD ""))])
        ∧ ((main_model ["prog"] none true).2.all fun e => !e.isFileIO) = true) :=
  ⟨by decide, by decide, spec_C6 ["prog"] none true (by decide) (by decide)⟩

/-- C7: when the input file cannot be opened, the program's trace is the
failed open followed by the `perror` diagnostic (which names the failed
operation and appends the OS error reason), the exit status is nonzero,
and no event touches the output file, so it is neither created nor
modified. -/
theorem spec_C7 (p f o nm : String) (rest : List String) (outOk : Bool) :
    main_model (p :: f :: o :: nm :: rest) none outOk
        = (1, [Ev.openInput false, Ev.perr "Failed to open input file"])
    ∧ (main_model (p :: f :: o :: nm :: rest) none outOk).1 ≠ 0
    ∧ ((main_model (p :: f :: o :: nm :: rest) none outOk).2.all
          fun e => !e.touchesOutput) = true := by
  have h1 := main_model_noInput p f o nm rest outOk
  exact ⟨h1, by rw [h1]; decide, by rw [h1]; rfl⟩

/-- C8: when the input opens but the output cannot be opened, the trace is
open-input, failed open-output, the `perror` diagnostic, and the close of
the input file, after which the process exits with status 1: the input
handle is closed before the process terminates and reports failure through
its exit status, and no handle is leaked (the diagnostic message itself is
printed just before the close — the full trace is stated, so the order of
those two steps is visible). -/
theorem spec_C8 (p f o nm : String) (rest : List String)
    (filesize : Nat) (avail : List (Fin 256)) :
    main_model (p :: f :: o :: nm :: rest) (some (filesize, avail)) false
        = (1, [Ev.openInput true, Ev.openOutput false,
               Ev.perr "Failed to open output file", Ev.closeInput])
    ∧ Ev.closeInput
        ∈ (main_model (p :: f :: o :: nm :: rest) (some (filesize, avail)) false).2
    ∧ leakFree (main_model (p :: f :: o :: nm :: rest) (some (filesize, avail)) false).2
        = true
    ∧ (main_model (p :: f :: o :: nm :: rest) (some (filesize, avail)) false).1 ≠ 0 := by
  have h1 := main_model_noOutput p f o nm rest filesize avail
  refine ⟨h1, ?_, ?_, ?_⟩ <;> rw [h1] <;> decide

/-- C9 counterexample: in a concrete successful run the `fopen` of the
output file is event 1 while the `ftell` length query is event 3 — the
output file is opened *before* the input length is determined, refuting the
claim's ordering of step 1 (determine length) before step 2 (open output). -/
theorem spec_C9_cex :
    List.findIdx? Ev.isOpenOut
        ((main_model ["p", "a", "b", "N"] (some (1, [(0 : Fin 256)])) true).2)
      = some 1
    ∧ List.findIdx? Ev.isTell
        ((main_model ["p", "a", "b", "N"] (some (1, [(0 : Fin 256)])) true).2)
      = some 3
    ∧ (1 : Nat) < 3 := by
  decide

/-- C9 (amended): in every successful run the trace starts with open-input,
open-output, seek-to-end, the `ftell` length query and `rewind`, in that
order — so the input length is determined before any byte is read (no read
event occurs among the first five events, hence every read comes after the
length query), but the output file is opened *before* the length is
determined, not after. -/
theorem spec_C9 (p f o nm : String) (rest : List String)
    (filesize : Nat) (avail : List (Fin 256)) :
    ((main_model (p :: f :: o :: nm :: rest) (some (filesize, avail)) true).2.take 5
        = [Ev.openInput true, Ev.openOutput true, Ev.seekEnd,
           Ev.tell filesize, Ev.rewind])
    ∧ (((main_model (p :: f :: o :: nm :: rest) (some (filesize, avail)) true).2.take 5).all
          fun e => !e.isRead) = true := by
  rw [main_model_success p f o nm rest filesize avail]
  exact ⟨rfl, rfl⟩

/-- C10: whenever both `fopen` calls succeed the run always completes with
exit status 0 and its last action is the success message naming the output
path and the `ftell` byte count; the file contents are the fixed header
text around the loop's body, the number of emitted hex literals is
`min filesize avail.length` (the loop silently stops at early EOF, which no
code path detects or reports), and in the concrete instance of a file that
shrank to 1 byte after `ftell` returned 2, the header carries `SIZE 2` but
only the single literal `0x00` — while the run still succeeds. -/
theorem spec_C10 (p f o nm : String) (rest : List String)
    (filesize : Nat) (avail : List (Fin 256)) :
    (main_model (p :: f :: o :: nm :: rest) (some (filesize, avail)) true).1 = 0
    ∧ (main_model (p :: f :: o :: nm :: rest) (some (filesize, avail)) true).2.getLast?
        = some (Ev.printStdout (successMsg o filesize))
    ∧ outContent (main_model (p :: f :: o :: nm :: rest) (some (filesize, avail)) true).2
        = write_header_text filesize avail nm
    ∧ (tokens (array_body filesize avail 0).data).length = min filesize avail.length
    ∧ (tokens (array_body 2 [(0 : Fin 256)] 0).data).length = 1
    ∧ write_header_text 2 [(0 : Fin 256)] "X"
        = headerLead "X" 2 ++ "0x00, " ++ headerTail := by
  have h1 := main_model_success p f o nm rest filesize avail
  refine ⟨by rw [h1], ?_, ?_, ?_, by decide, by decide⟩
  · rw [h1]
    show (writeHeaderTrace filesize avail o nm).getLast? = _
    unfold writeHeaderTrace
    simp only [← List.cons_append]
    exact getLast?_append_four _ _ _ _ _
  · rw [h1]
    show outContent (writeHeaderTrace filesize avail o nm) = _
    unfold writeHeaderTrace
    simp [outContent, outContent_append, outContent_loop_ev, write_header_text,
      headerLead, String.append_assoc, String.append_empty]
  · rw [tokens_array_body avail filesize, List.length_map, List.length_take]
